import Mathlib

/- Shallow embedding of the benchmark-log parsing and rendering logic of
src/scripts/parse-bench-output.py and src/scripts/parse-bench-summary.py.
Strings are modelled by Lean String, Python str operations by explicit
functions on the underlying character lists. -/

/-- Python whitespace for str.strip with no arguments, restricted to the
ASCII whitespace characters. -/
def pyWsp (c : Char) : Bool :=
  c = ' ' || c = '\t' || c = '\n' || c = '\r' || c = '\x0b' || c = '\x0c'

/-- Removal of leading whitespace from a character list. -/
def stripLead (l : List Char) : List Char := l.dropWhile pyWsp

/-- Removal of trailing whitespace from a character list. -/
def stripTrail (l : List Char) : List Char := (l.reverse.dropWhile pyWsp).reverse

/-- Python str.strip with no arguments: remove leading and trailing
whitespace. -/
def pyStrip (s : String) : String := String.mk (stripTrail (stripLead s.data))

/-- Python str.split with a one-character separator, on character lists:
every segment between separators is kept, empty segments included, and the
empty input yields one empty segment. -/
def splitChar (sep : Char) : List Char → List (List Char)
  | [] => [[]]
  | c :: t =>
    match splitChar sep t with
    | [] => [[]]
    | r :: rs => if c = sep then [] :: r :: rs else (c :: r) :: rs

/-- Python str.split with a one-character separator. -/
def pySplit (sep : Char) (s : String) : List String :=
  (splitChar sep s.data).map String.mk

/-- Python substring containment on character lists. -/
def occursIn (pat : List Char) : List Char → Bool
  | [] => pat.isPrefixOf []
  | c :: t => pat.isPrefixOf (c :: t) || occursIn pat t

/-- Python substring containment test, as in the expression pat in s. -/
def containsSub (pat s : String) : Bool := occursIn pat.data s.data

/-- The header trigger shared by both scripts: the line contains both the
substrings Runtime and Min. -/
def isHeader (line : String) : Bool :=
  containsSub "Runtime" line && containsSub "Min" line

/-- Python single-character containment, as in the expression c in line. -/
def hasChar (c : Char) (s : String) : Bool := s.data.contains c

/-- The field extraction shared by both scripts: split the line on the pipe
character, strip each segment, and keep the non-empty stripped segments. -/
def partsOf (line : String) : List String :=
  ((pySplit '|' line).map pyStrip).filter (fun p => p != "")

/-- The row acceptance test shared by both scripts:
at least 4 fields and the first field is not the literal Runtime. -/
def acceptsParts (parts : List String) : Bool :=
  decide (4 ≤ parts.length) && (parts.headD "" != "Runtime")

/-- The scan loop of parse-bench-output.py (lines 13 to 22): structural
recursion over the remaining lines, carrying the in_table flag and the
accumulated results; returning the accumulator models the break statement. -/
def scanOut : List String → Bool → List (List String) → List (List String)
  | [], _, acc => acc
  | line :: rest, inTable, acc =>
    if isHeader line then
      scanOut rest true acc
    else if inTable && !(pyStrip line == "") && hasChar '|' line then
      (if acceptsParts (partsOf line) then
        scanOut rest inTable (acc ++ [partsOf line])
      else
        scanOut rest inTable acc)
    else if inTable && (pyStrip line == "") then
      acc
    else
      scanOut rest inTable acc

/-- Parsing stage of parse-bench-output.py: split the content on newline and
scan with in_table initially false and results initially empty. -/
def parseBenchOut (content : String) : List (List String) :=
  scanOut (pySplit '\n' content) false []

/-- The scan loop of parse-bench-summary.py (lines 11 to 20), transliterated
on its own; it is textually identical to the loop of parse-bench-output.py. -/
def scanSum : List String → Bool → List (List String) → List (List String)
  | [], _, acc => acc
  | line :: rest, inTable, acc =>
    if isHeader line then
      scanSum rest true acc
    else if inTable && !(pyStrip line == "") && hasChar '|' line then
      (if acceptsParts (partsOf line) then
        scanSum rest inTable (acc ++ [partsOf line])
      else
        scanSum rest inTable acc)
    else if inTable && (pyStrip line == "") then
      acc
    else
      scanSum rest inTable acc

/-- Parsing stage of parse-bench-summary.py. -/
def parseBenchSum (content : String) : List (List String) :=
  scanSum (pySplit '\n' content) false []

/-- Python string formatting with a bare width w: left justify, padding on
the right with spaces; a string at least w long is left unchanged. -/
def ljust (s : String) (w : Nat) : String :=
  s ++ String.mk (List.replicate (w - s.length) ' ')

/-- One console table row, from the f-string shared by both scripts,
including the newline appended by print. -/
def consoleRow (r : List String) : String :=
  "| " ++ ljust (r.getD 0 "") 7 ++ " | " ++ ljust (r.getD 1 "") 5 ++ " | " ++
    ljust (r.getD 2 "") 5 ++ " | " ++ ljust (r.getD 3 "") 5 ++ " |\n"

/-- Standard output of parse-bench-output.py (lines 24 to 31) as a function
of the parsed results: each print call contributes its text plus a
newline. -/
def consoleStdout (results : List (List String)) : String :=
  if results.isEmpty then
    "No benchmark results found\n"
  else
    "\n| Runtime | Min   | Max   | Avg   |\n" ++
    "|---------|-------|-------|-------|\n" ++
    results.foldl (fun acc r => acc ++ consoleRow r) "" ++
    "\nTotal: " ++ toString results.length ++ " runtimes tested\n"

/-- One markdown table row as written by parse-bench-summary.py (line 28). -/
def mdRow (r : List String) : String :=
  "| " ++ r.getD 0 "" ++ " | " ++ r.getD 1 "" ++ " | " ++ r.getD 2 "" ++
    " | " ++ r.getD 3 "" ++ " |\n"

/-- Content written to bench-summary.md by parse-bench-summary.py
(lines 23 to 29): the concatenation of the f.write calls. -/
def mdFileContent (results : List (List String)) : String :=
  "\n## Performance Benchmarks\n\n" ++
  "| Runtime | Min | Max | Avg |\n" ++
  "|--------|-----|-----|-----|\n" ++
  results.foldl (fun acc r => acc ++ mdRow r) "" ++
  "\n**Total runtimes tested:** " ++ toString results.length ++ "\n"

/-- Standard output of parse-bench-summary.py (lines 31 to 37) as a function
of the parsed results: the same prints as the console script when results is
non-empty, and nothing at all when it is empty. -/
def summaryStdout (results : List (List String)) : String :=
  if results.isEmpty then
    ""
  else
    "\n| Runtime | Min   | Max   | Avg   |\n" ++
    "|---------|-------|-------|-------|\n" ++
    results.foldl (fun acc r => acc ++ consoleRow r) "" ++
    "\nTotal: " ++ toString results.length ++ " runtimes tested\n"

/- Helper lemmas about one step of the scan loop. -/

theorem scanOut_nil (t : Bool) (acc : List (List String)) :
    scanOut [] t acc = acc := rfl

theorem scanOut_header (l : String) (ls : List String) (t : Bool)
    (acc : List (List String)) (h : isHeader l = true) :
    scanOut (l :: ls) t acc = scanOut ls true acc := by
  simp [scanOut, h]

theorem scanOut_seek (l : String) (ls : List String)
    (acc : List (List String)) (h : isHeader l = false) :
    scanOut (l :: ls) false acc = scanOut ls false acc := by
  simp [scanOut, h]

theorem scanOut_blank (l : String) (ls : List String)
    (acc : List (List String)) (h : isHeader l = false)
    (hb : pyStrip l = "") :
    scanOut (l :: ls) true acc = acc := by
  simp [scanOut, h, hb]

theorem scanOut_candidate (l : String) (ls : List String)
    (acc : List (List String)) (h : isHeader l = false)
    (hb : pyStrip l ≠ "") (hp : hasChar '|' l = true) :
    scanOut (l :: ls) true acc =
      if acceptsParts (partsOf l) then scanOut ls true (acc ++ [partsOf l])
      else scanOut ls true acc := by
  simp [scanOut, h, hp, beq_iff_eq, hb]

theorem scanOut_nopipe (l : String) (ls : List String)
    (acc : List (List String)) (h : isHeader l = false)
    (hb : pyStrip l ≠ "") (hp : hasChar '|' l = false) :
    scanOut (l :: ls) true acc = scanOut ls true acc := by
  simp [scanOut, h, hp, beq_iff_eq, hb]

/-- A line that the scan loop accepts as a data row while inside the table:
not a header trigger, non-blank, contains a pipe, and its fields pass the
acceptance test. -/
def goodRow (l : String) : Prop :=
  isHeader l = false ∧ pyStrip l ≠ "" ∧ hasChar '|' l = true ∧
    acceptsParts (partsOf l) = true

theorem scanOut_seek_list (pre ls : List String) (acc : List (List String))
    (h : ∀ l ∈ pre, isHeader l = false) :
    scanOut (pre ++ ls) false acc = scanOut ls false acc := by
  induction pre with
  | nil => rfl
  | cons a t ih =>
    rw [List.cons_append, scanOut_seek _ _ _ (h a (by simp))]
    exact ih fun l hl => h l (by simp [hl])

theorem scanOut_rows (ds ls : List String) (acc : List (List String))
    (h : ∀ d ∈ ds, goodRow d) :
    scanOut (ds ++ ls) true acc = scanOut ls true (acc ++ ds.map partsOf) := by
  induction ds generalizing acc with
  | nil => simp
  | cons d t ih =>
    obtain ⟨h1, h2, h3, h4⟩ := h d (by simp)
    rw [List.cons_append, scanOut_candidate _ _ _ h1 h2 h3, if_pos h4,
      ih _ fun l hl => h l (by simp [hl])]
    simp

theorem mem_scanOut (lines : List String) (t : Bool)
    (acc : List (List String)) (r : List String)
    (hr : r ∈ scanOut lines t acc) :
    r ∈ acc ∨ ∃ l ∈ lines, r = partsOf l ∧ acceptsParts (partsOf l) = true := by
  induction lines generalizing t acc with
  | nil => exact Or.inl hr
  | cons a tl ih =>
    have push :
        r ∈ scanOut tl t acc →
        r ∈ acc ∨ ∃ l ∈ a :: tl, r = partsOf l ∧ acceptsParts (partsOf l) = true := by
      intro hm
      rcases ih _ _ hm with hm | ⟨l, hl, he⟩
      · exact Or.inl hm
      · exact Or.inr ⟨l, by simp [hl], he⟩
    have pushT :
        r ∈ scanOut tl true acc →
        r ∈ acc ∨ ∃ l ∈ a :: tl, r = partsOf l ∧ acceptsParts (partsOf l) = true := by
      intro hm
      rcases ih _ _ hm with hm | ⟨l, hl, he⟩
      · exact Or.inl hm
      · exact Or.inr ⟨l, by simp [hl], he⟩
    by_cases h1 : isHeader a = true
    · rw [scanOut_header _ _ _ _ h1] at hr
      exact pushT hr
    · have h1' : isHeader a = false := by simpa using h1
      cases t with
      | false =>
        rw [scanOut_seek _ _ _ h1'] at hr
        exact push hr
      | true =>
        by_cases h2 : pyStrip a = ""
        · rw [scanOut_blank _ _ _ h1' h2] at hr
          exact Or.inl hr
        · by_cases h3 : hasChar '|' a = true
          · rw [scanOut_candidate _ _ _ h1' h2 h3] at hr
            by_cases h4 : acceptsParts (partsOf a) = true
            · rw [if_pos h4] at hr
              rcases ih _ _ hr with hm | ⟨l, hl, he⟩
              · rcases List.mem_append.mp hm with hm | hm
                · exact Or.inl hm
                · refine Or.inr ⟨a, by simp, ?_, h4⟩
                  simpa using hm
              · exact Or.inr ⟨l, by simp [hl], he⟩
            · rw [if_neg h4] at hr
              exact pushT hr
          · have h3' : hasChar '|' a = false := by simpa using h3
            rw [scanOut_nopipe _ _ _ h1' h2 h3'] at hr
            exact pushT hr

theorem scanOut_eq_scanSum (lines : List String) (t : Bool)
    (acc : List (List String)) : scanOut lines t acc = scanSum lines t acc := by
  induction lines generalizing t acc with
  | nil => rfl
  | cons a tl ih =>
    simp only [scanOut, scanSum]
    split_ifs <;> first | rfl | apply ih

theorem occursIn_head_mem (c : Char) (p l : List Char)
    (h : occursIn (c :: p) l = true) : c ∈ l := by
  induction l with
  | nil => simp [occursIn, List.isPrefixOf] at h
  | cons d t ih =>
    simp only [occursIn, Bool.or_eq_true] at h
    rcases h with h | h
    · rw [List.isPrefixOf_cons₂, Bool.and_eq_true, beq_iff_eq] at h
      simp [h.1]
    · exact List.mem_cons_of_mem _ (ih h)

theorem pyStrip_empty_wsp (s : String) (h : pyStrip s = "") :
    ∀ c ∈ s.data, pyWsp c = true := by
  have hd : stripTrail (stripLead s.data) = [] := congrArg String.data h
  rw [stripTrail, List.reverse_eq_nil_iff, List.dropWhile_eq_nil_iff] at hd
  intro c hc
  have := List.takeWhile_append_dropWhile pyWsp s.data
  rcases List.mem_append.mp (this ▸ hc) with hm | hm
  · exact List.mem_takeWhile_imp hm
  · exact hd c (List.mem_reverse.mpr hm)

theorem blank_not_header (s : String) (h : pyStrip s = "") :
    isHeader s = false := by
  cases hR : containsSub "Runtime" s with
  | false => simp [isHeader, hR]
  | true =>
    exfalso
    have e : ("Runtime" : String).data = 'R' :: ("untime" : String).data := by
      decide
    rw [containsSub, e] at hR
    have hmem := occursIn_head_mem _ _ _ hR
    have := pyStrip_empty_wsp s h 'R' hmem
    simp [pyWsp] at this

/- Helper lemmas about splitting and stripping, for the field invariants. -/

theorem splitChar_ne_nil (sep : Char) (l : List Char) :
    splitChar sep l ≠ [] := by
  cases l with
  | nil => simp [splitChar]
  | cons c t =>
    simp only [splitChar]
    cases splitChar sep t with
    | nil => simp
    | cons r rs => split_ifs <;> simp

theorem mem_splitChar (sep : Char) (l : List Char) (seg : List Char)
    (h : seg ∈ splitChar sep l) : sep ∉ seg := by
  induction l generalizing seg with
  | nil =>
    simp only [splitChar, List.mem_singleton] at h
    simp [h]
  | cons c t ih =>
    simp only [splitChar] at h
    cases hs : splitChar sep t with
    | nil => exact absurd hs (splitChar_ne_nil sep t)
    | cons r rs =>
      rw [hs] at h
      change seg ∈ if c = sep then [] :: r :: rs else (c :: r) :: rs at h
      by_cases hc : c = sep
      · rw [if_pos hc] at h
        rcases List.mem_cons.mp h with h | h
        · simp [h]
        · exact ih seg (hs ▸ h)
      · rw [if_neg hc] at h
        rcases List.mem_cons.mp h with h | h
        · subst h
          intro hmem
          rcases List.mem_cons.mp hmem with h | h
          · exact hc h.symm
          · exact ih r (hs ▸ List.mem_cons_self r rs) h
        · exact ih seg (hs ▸ List.mem_cons_of_mem r h)

theorem dropWhile_head?_false {α : Type} (p : α → Bool) (l : List α) (a : α)
    (h : (l.dropWhile p).head? = some a) : p a = false := by
  induction l with
  | nil => simp at h
  | cons b t ih =>
    by_cases hpb : p b = true
    · rw [List.dropWhile_cons, if_pos hpb] at h
      exact ih h
    · rw [List.dropWhile_cons, if_neg hpb] at h
      have : b = a := by simpa using h
      subst this
      simpa using hpb

theorem dropWhile_eq_self_of_head {α : Type} (p : α → Bool) (l : List α)
    (h : ∀ a, l.head? = some a → p a = false) : l.dropWhile p = l := by
  cases l with
  | nil => rfl
  | cons b t =>
    have := h b rfl
    rw [List.dropWhile_cons, if_neg (by simp [this])]

theorem prefix_head?_eq {α : Type} (n m : List α) (hp : n <+: m) (a : α)
    (h : n.head? = some a) : m.head? = some a := by
  obtain ⟨t, rfl⟩ := hp
  cases n with
  | nil => simp at h
  | cons b bs => simpa using h

theorem strip2_idem (l : List Char) :
    stripTrail (stripLead (stripTrail (stripLead l))) =
      stripTrail (stripLead l) := by
  set m := stripLead l with hm
  set n := stripTrail m with hn
  have hpre : n <+: m := by
    rw [hn, stripTrail]
    have hsuf : m.reverse.dropWhile pyWsp <:+ m.reverse :=
      List.dropWhile_suffix _
    have := List.reverse_prefix.mpr hsuf
    simpa using this
  have hheadm : ∀ a, m.head? = some a → pyWsp a = false := by
    intro a ha
    rw [hm, stripLead] at ha
    exact dropWhile_head?_false _ _ _ ha
  have hheadn : ∀ a, n.head? = some a → pyWsp a = false := fun a ha =>
    hheadm a (prefix_head?_eq _ _ hpre a ha)
  have hlead : stripLead n = n := dropWhile_eq_self_of_head _ _ hheadn
  rw [hlead]
  have hrev : n.reverse = m.reverse.dropWhile pyWsp := by
    rw [hn, stripTrail, List.reverse_reverse]
  rw [stripTrail, hrev,
    dropWhile_eq_self_of_head _ _ (fun a ha => dropWhile_head?_false _ _ _ ha),
    ← hrev, List.reverse_reverse]

theorem pyStrip_idem (s : String) : pyStrip (pyStrip s) = pyStrip s :=
  congrArg String.mk (strip2_idem s.data)

theorem strip_sublist (l : List Char) :
    List.Sublist (stripTrail (stripLead l)) l := by
  have h1 : List.Sublist (stripLead l) l := List.dropWhile_sublist _
  have h2 : List.Sublist (stripTrail (stripLead l)) (stripLead l) := by
    rw [stripTrail]
    have := List.dropWhile_sublist (l := (stripLead l).reverse) pyWsp
    have := this.reverse
    simpa using this
  exact h2.trans h1

theorem mem_partsOf (line f : String) (hf : f ∈ partsOf line) :
    f ≠ "" ∧ f.data.contains '|' = false ∧ pyStrip f = f := by
  rw [partsOf] at hf
  obtain ⟨hmem, hne⟩ := List.mem_filter.mp hf
  have hne' : f ≠ "" := by simpa using hne
  obtain ⟨g, hg, rfl⟩ := List.mem_map.mp hmem
  rw [pySplit] at hg
  obtain ⟨seg, hseg, rfl⟩ := List.mem_map.mp hg
  refine ⟨hne', ?_, pyStrip_idem (String.mk seg)⟩
  have hsub : List.Sublist (pyStrip (String.mk seg)).data seg :=
    strip_sublist seg
  have hnotin : '|' ∉ seg := mem_splitChar _ _ _ hseg
  have hnot : '|' ∉ (pyStrip (String.mk seg)).data := fun hin =>
    hnotin (List.Sublist.mem hin hsub)
  cases hc : (pyStrip (String.mk seg)).data.contains '|' with
  | false => rfl
  | true => exact absurd (List.elem_iff.mp hc) hnot

/- Helper lemmas for the renderers and remaining scan facts. -/

/-- Concatenation of a list of strings, used to state the shape of the
rendered tables. -/
def joinStr : List String → String
  | [] => ""
  | s :: t => s ++ joinStr t

theorem foldl_append_joinStr {α : Type} (f : α → String) (rs : List α)
    (init : String) :
    rs.foldl (fun acc r => acc ++ f r) init = init ++ joinStr (rs.map f) := by
  induction rs generalizing init with
  | nil => simp [joinStr]
  | cons a t ih => simp [joinStr, ih, String.append_assoc]

theorem getD_take_lt {α : Type} (l : List α) (n i : Nat) (d : α) (h : i < n) :
    (l.take n).getD i d = l.getD i d := by
  rw [List.getD_eq_getElem?_getD, List.getD_eq_getElem?_getD,
    List.getElem?_take, if_pos h]

theorem scanOut_all_seek (lines : List String) (acc : List (List String))
    (h : ∀ l ∈ lines, isHeader l = false) :
    scanOut lines false acc = acc := by
  induction lines with
  | nil => rfl
  | cons a t ih =>
    rw [scanOut_seek _ _ _ (h a (by simp))]
    exact ih fun l hl => h l (by simp [hl])

theorem acceptsParts_length (parts : List String)
    (h : acceptsParts parts = true) :
    4 ≤ parts.length ∧ parts.headD "" ≠ "Runtime" := by
  rw [acceptsParts, Bool.and_eq_true] at h
  exact ⟨by simpa using h.1, by simpa using h.2⟩

/- Claim theorems. -/

/-- C1 counterexample: the input below has a header-trigger line followed,
before the first blank line, by two lines that each are non-empty, contain a
pipe, split into at least 4 non-empty trimmed segments with first segment
different from Runtime — so the claim demands 2 records — yet parsing yields
only 1 record, because the first data line itself contains the substrings
Runtime and Min and is consumed by the header branch of the loop. -/
theorem c1_counterexample :
    parseBenchOut "Runtime Min\n| RuntimeA | MinB | 1 | 2 |\n| go | 1 | 2 | 3 |\n\n" =
      [["go", "1", "2", "3"]] ∧
    (pyStrip "| RuntimeA | MinB | 1 | 2 |" ≠ "" ∧
      hasChar '|' "| RuntimeA | MinB | 1 | 2 |" = true ∧
      4 ≤ (partsOf "| RuntimeA | MinB | 1 | 2 |").length ∧
      (partsOf "| RuntimeA | MinB | 1 | 2 |").headD "" ≠ "Runtime") ∧
    (pyStrip "| go | 1 | 2 | 3 |" ≠ "" ∧
      hasChar '|' "| go | 1 | 2 | 3 |" = true ∧
      4 ≤ (partsOf "| go | 1 | 2 | 3 |").length ∧
      (partsOf "| go | 1 | 2 | 3 |").headD "" ≠ "Runtime") ∧
    (parseBenchOut
      "Runtime Min\n| RuntimeA | MinB | 1 | 2 |\n| go | 1 | 2 | 3 |\n\n").length ≠ 2 := by
  decide

/-- C1 (amended): if, in addition to the conditions of the claim, none of the
data lines itself contains both substrings Runtime and Min, then parsing
yields exactly one record per data line, in order, and each record is the
list of trimmed pipe-split non-empty segments of its line (so its first 4
fields are the first 4 such segments). -/
theorem c1_parse_wellformed (content : String) (pre ds post : List String)
    (hd bl : String)
    (hsplit : pySplit '\n' content = pre ++ hd :: (ds ++ bl :: post))
    (hpre : ∀ l ∈ pre, isHeader l = false)
    (hh : isHeader hd = true)
    (hds : ∀ d ∈ ds, isHeader d = false ∧ pyStrip d ≠ "" ∧
      hasChar '|' d = true ∧ 4 ≤ (partsOf d).length ∧
      (partsOf d).headD "" ≠ "Runtime")
    (hb : pyStrip bl = "") :
    parseBenchOut content = ds.map partsOf ∧
    (parseBenchOut content).length = ds.length := by
  have hgood : ∀ d ∈ ds, goodRow d := by
    intro d hdm
    obtain ⟨h1, h2, h3, h4, h5⟩ := hds d hdm
    refine ⟨h1, h2, h3, ?_⟩
    simp only [acceptsParts, Bool.and_eq_true, decide_eq_true_iff, bne_iff_ne]
    exact ⟨h4, h5⟩
  have hmain : parseBenchOut content = ds.map partsOf := by
    rw [parseBenchOut, hsplit, scanOut_seek_list _ _ _ hpre,
      scanOut_header _ _ _ _ hh, scanOut_rows _ _ _ hgood,
      scanOut_blank _ _ _ (blank_not_header bl hb) hb]
    simp
  exact ⟨hmain, by rw [hmain]; simp⟩

/-- C1 witness: the amended theorem applied to a concrete well-formed log. -/
theorem c1_parse_wellformed_witness :
    parseBenchOut "Runtime Min\n| go | 1.2 | 5.6 | 3.1 |\n\nrest" =
      [["go", "1.2", "5.6", "3.1"]] := by
  have h := c1_parse_wellformed
    "Runtime Min\n| go | 1.2 | 5.6 | 3.1 |\n\nrest"
    [] ["| go | 1.2 | 5.6 | 3.1 |"] ["rest"] "Runtime Min" ""
    (by decide) (by decide) (by decide) (by decide) (by decide)
  rw [h.1]
  decide

/-- C2 counterexample: after table start, the line below is a candidate data
row whose trimmed pipe-split field count is 4 with first field different
from Runtime, so the claim accepts it; the code nevertheless produces no
record for it, because the line contains the substrings Runtime and Min and
is consumed by the header branch. -/
theorem c2_counterexample :
    (pyStrip "| RuntimeA | MinB | 1 | 2 |" ≠ "" ∧
      hasChar '|' "| RuntimeA | MinB | 1 | 2 |" = true ∧
      acceptsParts (partsOf "| RuntimeA | MinB | 1 | 2 |") = true) ∧
    parseBenchOut "Runtime Min\n| RuntimeA | MinB | 1 | 2 |" = [] := by
  decide

/-- C2 (amended): the header-trigger branch applies to every line, not only
the first: after table start, a line containing both Runtime and Min is
skipped (it only re-triggers table start); any other candidate data row is
accepted as a record if and only if it has at least 4 non-empty trimmed
pipe-split segments and its first segment is not the literal Runtime. -/
theorem c2_scan_step (l : String) (ls : List String)
    (acc : List (List String)) :
    (isHeader l = true → scanOut (l :: ls) true acc = scanOut ls true acc) ∧
    (isHeader l = false → pyStrip l ≠ "" → hasChar '|' l = true →
      scanOut (l :: ls) true acc =
        if acceptsParts (partsOf l) then scanOut ls true (acc ++ [partsOf l])
        else scanOut ls true acc) :=
  ⟨fun h => scanOut_header l ls true acc h,
   fun h1 h2 h3 => scanOut_candidate l ls acc h1 h2 h3⟩

/-- C2 witness: the amended scan-step characterization applied to a concrete
accepted row and to a concrete re-triggering header-like row. -/
theorem c2_scan_step_witness :
    scanOut ["| go | 1 | 2 | 3 |"] true [] = [["go", "1", "2", "3"]] ∧
    scanOut ["| RuntimeA | MinB | 1 | 2 |"] true [] = [] := by
  constructor
  · have h := (c2_scan_step "| go | 1 | 2 | 3 |" [] []).2
      (by decide) (by decide) (by decide)
    rw [h]
    decide
  · have h := (c2_scan_step "| RuntimeA | MinB | 1 | 2 |" [] []).1 (by decide)
    rw [h]
    rfl

/-- C3 counterexample: an accepted line with 5 non-empty trimmed segments
produces a record with 5 fields, not exactly 4; the extra segment is kept in
the stored record. -/
theorem c3_counterexample :
    parseBenchOut "Runtime Min\n| a | b | c | d | e |\n" =
      [["a", "b", "c", "d", "e"]] ∧
    (["a", "b", "c", "d", "e"] : List String).length ≠ 4 := by
  decide

/-- C3 (amended): every record in the parse result has at least 4 fields
(the stored record keeps all non-empty trimmed segments, extras included),
and both renderers read only the first 4 fields of a record, so segments
beyond the fourth never affect any rendered row. -/
theorem c3_records (content : String) :
    (∀ r ∈ parseBenchOut content, 4 ≤ r.length) ∧
    (∀ r : List String,
      consoleRow r = consoleRow (r.take 4) ∧ mdRow r = mdRow (r.take 4)) := by
  constructor
  · intro r hr
    rcases mem_scanOut _ _ _ _ hr with hm | ⟨l, _, rfl, hacc⟩
    · simp at hm
    · exact (acceptsParts_length _ hacc).1
  · intro r
    constructor
    · rw [consoleRow, consoleRow,
        getD_take_lt _ _ _ _ (by norm_num : (0 : Nat) < 4),
        getD_take_lt _ _ _ _ (by norm_num : (1 : Nat) < 4),
        getD_take_lt _ _ _ _ (by norm_num : (2 : Nat) < 4),
        getD_take_lt _ _ _ _ (by norm_num : (3 : Nat) < 4)]
    · rw [mdRow, mdRow,
        getD_take_lt _ _ _ _ (by norm_num : (0 : Nat) < 4),
        getD_take_lt _ _ _ _ (by norm_num : (1 : Nat) < 4),
        getD_take_lt _ _ _ _ (by norm_num : (2 : Nat) < 4),
        getD_take_lt _ _ _ _ (by norm_num : (3 : Nat) < 4)]

/-- C3 witness: the amended theorem applied to a concrete 5-field record. -/
theorem c3_records_witness :
    4 ≤ (["a", "b", "c", "d", "e"] : List String).length ∧
    consoleRow ["x", "y", "z", "w", "v"] = consoleRow ["x", "y", "z", "w"] := by
  constructor
  · exact (c3_records "Runtime Min\n| a | b | c | d | e |\n").1
      ["a", "b", "c", "d", "e"] (by decide)
  · have h := ((c3_records "").2 ["x", "y", "z", "w", "v"]).1
    simpa using h

/-- C4: the parsing stages of the two scripts compute the same records on
every input text: the scan loops are the same function. -/
theorem c4_parse_stages_equal (content : String) :
    parseBenchOut content = parseBenchSum content :=
  scanOut_eq_scanSum _ _ _

/-- C5 counterexample: on an input with no benchmark table, the console
script prints its informational line while the markdown script prints
nothing at all to standard output, so the two standard outputs differ in the
empty case. -/
theorem c5_counterexample :
    consoleStdout (parseBenchOut "") = "No benchmark results found\n" ∧
    summaryStdout (parseBenchSum "") = "" ∧
    ("No benchmark results found\n" : String) ≠ "" := by
  decide

/-- C5 (amended): on every input whose parse result is non-empty, the
markdown script prints to standard output exactly the console-style
rendering the console script prints; when the parse result is empty the
markdown script prints nothing (it has no informational-line branch). -/
theorem c5_stdout (content : String) :
    (parseBenchSum content ≠ [] →
      summaryStdout (parseBenchSum content) =
        consoleStdout (parseBenchOut content)) ∧
    (parseBenchSum content = [] →
      summaryStdout (parseBenchSum content) = "") := by
  have he : parseBenchOut content = parseBenchSum content :=
    scanOut_eq_scanSum _ _ _
  constructor
  · intro hne
    rw [← he] at hne ⊢
    have hni : ¬((parseBenchOut content).isEmpty = true) := fun h =>
      hne (List.isEmpty_iff.mp h)
    rw [summaryStdout, consoleStdout, if_neg hni, if_neg hni]
  · intro hz
    rw [hz]
    rfl

/-- C5 witness: the amended theorem applied to a concrete log with one
record. -/
theorem c5_stdout_witness :
    summaryStdout (parseBenchSum "Runtime Min\n| go | 1 | 2 | 3 |") =
      consoleStdout (parseBenchOut "Runtime Min\n| go | 1 | 2 | 3 |") :=
  (c5_stdout "Runtime Min\n| go | 1 | 2 | 3 |").1 (by decide)

/-- C6: after table start, a blank line ends the scan with the accumulated
records, whatever lines follow; a non-blank pipe-free non-trigger line is
skipped without ending the scan; and on the concrete example from the spec
(header, a go row, a blank line, then a rust row) parsing yields exactly the
go record. -/
theorem c6_blank_terminates (b l : String) (ls : List String)
    (acc : List (List String)) :
    (pyStrip b = "" → scanOut (b :: ls) true acc = acc) ∧
    (isHeader l = false → pyStrip l ≠ "" → hasChar '|' l = false →
      scanOut (l :: ls) true acc = scanOut ls true acc) ∧
    parseBenchOut "Runtime Min Max Avg\n| go | 1 | 5 | 3 |\n\n| rust | 1 | 2 | 1 |" =
      [["go", "1", "5", "3"]] := by
  refine ⟨fun hb => scanOut_blank _ _ _ (blank_not_header b hb) hb,
    fun h1 h2 h3 => scanOut_nopipe _ _ _ h1 h2 h3, by decide⟩

/-- C6 witness: the theorem applied to a concrete blank line with a pending
pipe row after it, and to a concrete pipe-free line. -/
theorem c6_blank_terminates_witness :
    scanOut ["", "| rust | 1 | 2 | 1 |"] true [["go", "1", "5", "3"]] =
      [["go", "1", "5", "3"]] ∧
    scanOut ["plain text", "| go | 1 | 5 | 3 |"] true [] =
      scanOut ["| go | 1 | 5 | 3 |"] true [] := by
  constructor
  · exact (c6_blank_terminates "" "x" ["| rust | 1 | 2 | 1 |"]
      [["go", "1", "5", "3"]]).1 (by decide)
  · exact (c6_blank_terminates "" "plain text" ["| go | 1 | 5 | 3 |"] []).2.1
      (by decide) (by decide) (by decide)

/-- C7: an input with no header-trigger line parses to the empty result, an
input none of whose lines passes the field-count and header-guard test also
parses to the empty result, and the console script renders the empty result
as the single informational line, completing normally. -/
theorem c7_empty_result (content : String) :
    ((∀ l ∈ pySplit '\n' content, isHeader l = false) →
      parseBenchOut content = []) ∧
    ((∀ l ∈ pySplit '\n' content, acceptsParts (partsOf l) = false) →
      parseBenchOut content = []) ∧
    consoleStdout [] = "No benchmark results found\n" := by
  refine ⟨?_, ?_, rfl⟩
  · intro h
    exact scanOut_all_seek _ _ h
  · intro h
    rw [parseBenchOut]
    apply List.eq_nil_iff_forall_not_mem.mpr
    intro r hr
    rcases mem_scanOut _ _ _ _ hr with hm | ⟨l, hl, _, hacc⟩
    · simp at hm
    · rw [h l hl] at hacc
      exact Bool.false_ne_true hacc

/-- C7 witness: the theorem applied to a concrete header-free input with
pipe-delimited lines, and to a concrete input with a header but no valid
row. -/
theorem c7_empty_result_witness :
    parseBenchOut "no table here\n| a | b | c | d |" = [] ∧
    parseBenchOut "Runtime Min\n| Runtime | Min | x |\nshort | row" = [] := by
  constructor
  · exact (c7_empty_result "no table here\n| a | b | c | d |").1 (by decide)
  · exact (c7_empty_result "Runtime Min\n| Runtime | Min | x |\nshort | row").2.1
      (by decide)

/-- C8: the markdown file content always consists of the Performance
Benchmarks heading, the header row, the dash separator row, one row per
record with the 4 fields inserted verbatim without padding, and a
bold-labeled total-count line; with zero records it is exactly the heading,
header and separator rows, and a total-count line reporting 0. -/
theorem c8_markdown (results : List (List String)) :
    mdFileContent results =
      "\n## Performance Benchmarks\n\n" ++
      "| Runtime | Min | Max | Avg |\n" ++
      "|--------|-----|-----|-----|\n" ++
      joinStr (results.map mdRow) ++
      "\n**Total runtimes tested:** " ++ toString results.length ++ "\n" ∧
    (∀ r : List String,
      mdRow r = "| " ++ r.getD 0 "" ++ " | " ++ r.getD 1 "" ++ " | " ++
        r.getD 2 "" ++ " | " ++ r.getD 3 "" ++ " |\n") ∧
    mdFileContent [] =
      "\n## Performance Benchmarks\n\n| Runtime | Min | Max | Avg |\n|--------|-----|-----|-----|\n\n**Total runtimes tested:** 0\n" := by
  refine ⟨?_, fun r => rfl, by decide⟩
  rw [mdFileContent, foldl_append_joinStr]
  simp

/-- C9: for a non-empty result list, the console output is the header row,
the dash separator row, one row per record with the runtime field
left-justified to width 7 and the other fields to width 5 separated by
pipe-space delimiters, and a total-count line; the row rendered for the
record go, 1.2, 5.6, 3.1 is byte-for-byte the literal below. -/
theorem c9_console (results : List (List String)) :
    (results ≠ [] →
      consoleStdout results =
        "\n| Runtime | Min   | Max   | Avg   |\n" ++
        "|---------|-------|-------|-------|\n" ++
        joinStr (results.map consoleRow) ++
        "\nTotal: " ++ toString results.length ++ " runtimes tested\n") ∧
    (∀ r : List String,
      consoleRow r = "| " ++ ljust (r.getD 0 "") 7 ++ " | " ++
        ljust (r.getD 1 "") 5 ++ " | " ++ ljust (r.getD 2 "") 5 ++ " | " ++
        ljust (r.getD 3 "") 5 ++ " |\n") ∧
    consoleRow ["go", "1.2", "5.6", "3.1"] =
      "| go      | 1.2   | 5.6   | 3.1   |\n" := by
  refine ⟨?_, fun r => rfl, by decide⟩
  intro hne
  have hni : ¬(results.isEmpty = true) := fun h => hne (List.isEmpty_iff.mp h)
  rw [consoleStdout, if_neg hni, foldl_append_joinStr]
  simp [String.append_assoc]

/-- C9 witness: the theorem applied to a concrete one-record result. -/
theorem c9_console_witness :
    consoleStdout [["go", "1.2", "5.6", "3.1"]] =
      "\n| Runtime | Min   | Max   | Avg   |\n|---------|-------|-------|-------|\n| go      | 1.2   | 5.6   | 3.1   |\n\nTotal: 1 runtimes tested\n" := by
  have h := (c9_console [["go", "1.2", "5.6", "3.1"]]).1 (by decide)
  rw [h]
  decide

/-- C10: every field of every parsed record is a non-empty string with no
pipe character and no leading or trailing whitespace (stripping it again
changes nothing). -/
theorem c10_fields (content : String) :
    ∀ r ∈ parseBenchOut content, ∀ f ∈ r,
      f ≠ "" ∧ f.data.contains '|' = false ∧ pyStrip f = f := by
  intro r hr f hf
  rcases mem_scanOut _ _ _ _ hr with hm | ⟨l, _, rfl, _⟩
  · simp at hm
  · exact mem_partsOf l f hf

/-- C10 witness: the theorem applied to a concrete parsed field. -/
theorem c10_fields_witness :
    ("go" : String) ≠ "" ∧ ("go" : String).data.contains '|' = false ∧
      pyStrip "go" = "go" :=
  c10_fields "Runtime Min\n| go | 1 | 2 | 3 |" ["go", "1", "2", "3"]
    (by decide) "go" (by decide)
